import Mathlib

/-!
Shallow embedding of `create_db.py` (a generator that turns a 3-row CSV/TSV
into a Supabase `CREATE TABLE` statement), together with proofs of the
specification's claims about it.

Conventions used throughout the embedding:
* Python strings are modelled as Lean `String`/`List Char`.
* Python whitespace (`str.strip`, the regex class matched by a backslash-s)
  is modelled by `pyIsSpace`, covering the ASCII/Latin-1 whitespace
  characters; exotic Unicode whitespace is outside the scope of every claim.
* `str.lower` is modelled by `Char.toLower` (ASCII case folding); every
  string a claim depends on is ASCII.
* The float comparison `hits / len(non_empty) >= 0.55` is modelled exactly
  as the rational comparison `100 * hits >= 55 * len`; the two can only
  disagree for rows with around 10^17 cells, far beyond anything
  representable, because consecutive doubles near 0.55 are about 1.1e-16
  apart.
* Fallible Python code (exceptions) is modelled with `Except String`.
-/

namespace CreateDb

/-- Whitespace as recognised by Python's `str.strip`/regex whitespace class
(ASCII and Latin-1 fragment). -/
def pyIsSpace (c : Char) : Bool :=
  c = ' ' || c = '\t' || c = '\n' || c = '\r' || c = '\x0b' || c = '\x0c' ||
  c = '\x1c' || c = '\x1d' || c = '\x1e' || c = '\x1f' || c = '\x85' || c = '\xa0'

/-- Python `str.strip()` on a character list. -/
def pyStripL (l : List Char) : List Char :=
  ((l.dropWhile pyIsSpace).reverse.dropWhile pyIsSpace).reverse

/-- Python `str.strip()`. -/
def pyStrip (s : String) : String := ⟨pyStripL s.data⟩

/-- Collapse every maximal run of whitespace to a single space, i.e. the
effect of Python `re.sub(r"\s+", " ", s)`.  The boolean records whether the
previous character was part of a whitespace run. -/
def collapseWs : List Char → Bool → List Char
  | [], _ => []
  | c :: cs, prev =>
    if pyIsSpace c then
      if prev then collapseWs cs true else ' ' :: collapseWs cs true
    else c :: collapseWs cs false

/-- `normalize_sheet_type` from `create_db.py`: strip, lower-case, collapse
internal whitespace runs to single spaces.  (The Python `None` guard cannot
arise for Lean strings.) -/
def normalize_sheet_type (label : String) : String :=
  ⟨collapseWs ((pyStripL label.data).map Char.toLower) false⟩

/-- First character class of the regex `^[a-z_][a-z0-9_]*$`. -/
def isIdentStart (c : Char) : Bool := ('a' ≤ c && c ≤ 'z') || c = '_'

/-- Repeated character class of the regex `^[a-z_][a-z0-9_]*$`. -/
def isIdentChar (c : Char) : Bool :=
  ('a' ≤ c && c ≤ 'z') || ('0' ≤ c && c ≤ '9') || c = '_'

/-- Tail of the regex match `[a-z0-9_]*$` with Python semantics: the dollar
anchor also matches just before a single newline at the very end of the
string, so `re.match(r"^[a-z_][a-z0-9_]*$", "a\n")` succeeds in Python. -/
def identTail : List Char → Bool
  | [] => true
  | c :: cs => (c = '\n' && cs.isEmpty) || (isIdentChar c && identTail cs)

/-- `is_valid_identifier` from `create_db.py`:
`bool(re.match(r"^[a-z_][a-z0-9_]*$", name or ""))`. -/
def is_valid_identifier (name : String) : Bool :=
  match name.data with
  | [] => false
  | c :: cs => isIdentStart c && identTail cs

/-- Python `ident.replace('"', '""')` on a character list. -/
def escapeQuotes : List Char → List Char
  | [] => []
  | c :: cs => if c = '"' then '"' :: '"' :: escapeQuotes cs else c :: escapeQuotes cs

/-- `quote_ident` from `create_db.py`. -/
def quote_ident (ident : String) : String :=
  if is_valid_identifier ident then ident
  else ⟨'"' :: (escapeQuotes ident.data ++ ['"'])⟩

/-- `SIMPLE_TYPE_MAP` from `create_db.py`, as an association list in source
order (Python dict lookup on string keys; order is irrelevant to lookup since
the keys are distinct). -/
def SIMPLE_TYPE_MAP : List (String × String) :=
  [("string", "text"),
   ("adress", "text"),
   ("text", "text"),
   ("phone", "text"),
   ("datetime", "timestamptz"),
   ("date", "date"),
   ("time", "time"),
   ("boolean", "boolean"),
   ("currency", "numeric(12,2)"),
   ("decimal", "numeric"),
   ("employee list", "jsonb"),
   ("employee list (ordered array)", "jsonb")]

/-- Dictionary lookup `SIMPLE_TYPE_MAP[key]`. -/
def lookupSimple (key : String) : Option String :=
  (SIMPLE_TYPE_MAP.find? (fun p => p.1 = key)).map (fun p => p.2)

/-- `map_type` from `create_db.py`.  Returns the SQL type (empty means "drop
the column") and the warnings emitted for this cell. -/
def map_type (sheet_type_label : String) (column_name : String) : String × List String :=
  if normalize_sheet_type sheet_type_label = "enum" then
    if column_name = "" then ("", ["Enum column without a name; skipped."])
    else (quote_ident column_name, [])
  else if normalize_sheet_type sheet_type_label = "enum (multi select)" then
    if column_name = "" then ("", ["Enum (multi select) column without a name; skipped."])
    else (quote_ident column_name ++ "[]", [])
  else
    match lookupSimple (normalize_sheet_type sheet_type_label) with
    | some t => (t, [])
    | none =>
      ("text",
       ["Unrecognized type '" ++ sheet_type_label ++ "' for column '" ++ column_name ++
        "', defaulting to text."])

/-- `KNOWN_LABELS` membership test from `create_db.py`
(`SIMPLE_TYPE_MAP` keys plus the two enum labels). -/
def isKnownLabel (n : String) : Bool :=
  (SIMPLE_TYPE_MAP.any (fun p => p.1 = n)) || n = "enum" || n = "enum (multi select)"

/-- The comment text for a column: `re.sub(r"\s+", " ", desc.strip())` when
`desc.strip()` is truthy, else the empty string. -/
def collapseComment (desc : String) : String :=
  if pyStrip desc = "" then "" else ⟨collapseWs (pyStrip desc).data false⟩

/-- The column-building pass of `generate_create_table_sql`: walks the zipped
rows and produces the `(definition_sql, comment_text)` pairs together with the
accumulated warnings, in order. -/
def buildCols : List (String × String × String) → List (String × String) × List String
  | [] => ([], [])
  | (dsc, ty, col) :: rest =>
    let col2 := pyStrip col
    let ty2 := pyStrip ty
    if col2 = "" then buildCols rest
    else
      let pw := map_type ty2 col2
      let cw := buildCols rest
      if pw.1 = "" then (cw.1, pw.2 ++ cw.2)
      else ((quote_ident col2 ++ " " ++ pw.1, collapseComment dsc) :: cw.1, pw.2 ++ cw.2)

/-- One emitted column line: two-space indent, the definition, a comma unless
it is the last column, and the optional inline comment. -/
def colLine (defSql : String) (isLast : Bool) (comment : String) : String :=
  "  " ++ defSql ++ (if isLast then "" else ",") ++
    (if comment = "" then "" else "  -- " ++ comment)

/-- The column emission loop (`is_last` iff nothing follows). -/
def emitCols : List (String × String) → List String
  | [] => []
  | (d, c) :: rest => colLine d rest.isEmpty c :: emitCols rest

/-- The trailing warnings block: nothing when no warnings accumulated,
otherwise a blank line, a header comment, and one comment line per warning. -/
def warnTail (ws : List String) : List String :=
  if ws.isEmpty then []
  else "" :: "-- Warnings during generation:" :: ws.map (fun w => "--   " ++ w)

/-- The fixed surrogate-key line. -/
def idLine : String := "  id uuid primary key default gen_random_uuid(),"

/-- The list of lines built by `generate_create_table_sql` (the `ddl_lines`
variable just before the final join). -/
def ddlLines (table : String) (descriptions type_labels colnames : List String) :
    List String :=
  let q := quote_ident table
  let cw := buildCols (descriptions.zip (type_labels.zip colnames))
  ["-- Generated by generate_supabase_schema.py",
   "-- Table: " ++ q,
   "create table if not exists " ++ q ++ " (",
   "  -- Surrogate primary key for internal use",
   idLine] ++ emitCols cw.1 ++ [");"] ++ warnTail cw.2

/-- `generate_create_table_sql` from `create_db.py`: the joined text. -/
def generate_create_table_sql (table : String)
    (descriptions type_labels colnames : List String) : String :=
  String.intercalate "\n" (ddlLines table descriptions type_labels colnames)

/-- Number of entries of `l` equal to `s`. -/
def countEq (s : String) (l : List String) : Nat := l.countP (fun x => x == s)

/-- `POSSIBLE_DELIMS` from `create_db.py`, in priority order. -/
def POSSIBLE_DELIMS : List String := [",", "\t", ";", "|"]

/-- The single character of a one-character delimiter string. -/
def delimChar (s : String) : Char := s.data.headD ' '

/-- States of the CPython `_csv` reader state machine (non-strict dialect,
quote character `"`, doublequote on, no escape character):
start-of-record, start-of-field, in unquoted field, in quoted field,
quote-seen-inside-quoted-field, and eat-CR-LF after a record ended on `\r`. -/
inductive CsvSt where
  | sr | sf | fld | qf | qq | ec
deriving DecidableEq

/-- The error CPython raises when a character follows a lone `\r`. -/
def csvErrMsg : String :=
  "new-line character seen in unquoted field - do you need to open the file in universal-newline mode?"

/-- Character-by-character transcription of the CPython `_csv` reader used by
`csv.reader(io.StringIO(text), delimiter=d)`.  `fld` is the current field
(reversed), `row` the fields of the current record (reversed), `rows` the
finished records (reversed). -/
def csvParseAux (d : Char) : List Char → CsvSt → List Char → List String → List (List String) →
    Except String (List (List String))
  | [], .sr, _, _, rows => .ok rows.reverse
  | [], .ec, _, _, rows => .ok rows.reverse
  | [], _, fld, row, rows => .ok (((String.mk fld.reverse :: row).reverse) :: rows).reverse
  | c :: cs, .sr, _, _, rows =>
    if c = '\n' then csvParseAux d cs .sr [] [] ([] :: rows)
    else if c = '\r' then csvParseAux d cs .ec [] [] ([] :: rows)
    else if c = '"' then csvParseAux d cs .qf [] [] rows
    else if c = d then csvParseAux d cs .sf [] [""] rows
    else csvParseAux d cs .fld [c] [] rows
  | c :: cs, .sf, _, row, rows =>
    if c = '\n' then csvParseAux d cs .sr [] [] ((("" :: row).reverse) :: rows)
    else if c = '\r' then csvParseAux d cs .ec [] [] ((("" :: row).reverse) :: rows)
    else if c = '"' then csvParseAux d cs .qf [] row rows
    else if c = d then csvParseAux d cs .sf [] ("" :: row) rows
    else csvParseAux d cs .fld [c] row rows
  | c :: cs, .fld, fld, row, rows =>
    if c = '\n' then csvParseAux d cs .sr [] [] (((String.mk fld.reverse :: row).reverse) :: rows)
    else if c = '\r' then csvParseAux d cs .ec [] [] (((String.mk fld.reverse :: row).reverse) :: rows)
    else if c = d then csvParseAux d cs .sf [] (String.mk fld.reverse :: row) rows
    else csvParseAux d cs .fld (c :: fld) row rows
  | c :: cs, .qf, fld, row, rows =>
    if c = '"' then csvParseAux d cs .qq fld row rows
    else csvParseAux d cs .qf (c :: fld) row rows
  | c :: cs, .qq, fld, row, rows =>
    if c = '"' then csvParseAux d cs .qf ('"' :: fld) row rows
    else if c = d then csvParseAux d cs .sf [] (String.mk fld.reverse :: row) rows
    else if c = '\n' then csvParseAux d cs .sr [] [] (((String.mk fld.reverse :: row).reverse) :: rows)
    else if c = '\r' then csvParseAux d cs .ec [] [] (((String.mk fld.reverse :: row).reverse) :: rows)
    else csvParseAux d cs .fld (c :: fld) row rows
  | c :: cs, .ec, fld, row, rows =>
    if c = '\n' then csvParseAux d cs .sr fld row rows
    else if c = '\r' then csvParseAux d cs .ec fld row rows
    else .error csvErrMsg

/-- `list(csv.reader(io.StringIO(text), delimiter=d))`. -/
def csvParse (d : Char) (text : String) : Except String (List (List String)) :=
  csvParseAux d text.data .sr [] [] []

/-- `len(list(csv.reader([line], delimiter=d))[0])` for a single line without
newline characters (the out-of-range access for an empty line never happens
in `sniff_delimiter`, whose first line is non-blank; it is modelled as 0). -/
def lineFieldCount (d : Char) (line : List Char) : Nat :=
  match csvParseAux d line .sr [] [] [] with
  | .ok (r :: _) => r.length
  | _ => 0

/-- Python `str.splitlines()` restricted to the `\r\n`, `\r`, `\n`
terminators (the exotic Unicode line boundaries play no role in any claim).
The accumulator holds the current line, reversed. -/
def pySplitlinesAux : List Char → List Char → List (List Char)
  | [], acc => if acc.isEmpty then [] else [acc.reverse]
  | '\r' :: '\n' :: rest, acc => acc.reverse :: pySplitlinesAux rest []
  | '\r' :: rest, acc => acc.reverse :: pySplitlinesAux rest []
  | '\n' :: rest, acc => acc.reverse :: pySplitlinesAux rest []
  | c :: rest, acc => pySplitlinesAux rest (c :: acc)

/-- `[ln for ln in sample.splitlines() if ln.strip()]`. -/
def nonBlankLines (sample : String) : List (List Char) :=
  (pySplitlinesAux sample.data []).filter (fun l => l.any (fun c => !pyIsSpace c))

/-- The best-delimiter fold of `sniff_delimiter`'s fallback: scan the
candidates in order and remember the first candidate whose field count
strictly exceeds every count seen so far (initially 0). -/
def pickGo (f : String → Nat) : List String → Option String → Nat → Option String
  | [], best, _ => best
  | d :: ds, best, bc => if bc < f d then pickGo f ds (some d) (f d) else pickGo f ds best bc

/-- The deterministic fallback of `sniff_delimiter` (everything after the
`csv.Sniffer` attempt). -/
def sniffFallback (sample : String) : Option String :=
  match nonBlankLines sample with
  | [] => none
  | l :: _ => pickGo (fun ds => lineFieldCount (delimChar ds) l) POSSIBLE_DELIMS none 0

/-- `sniff_delimiter` from `create_db.py`, parameterised by the statistical
`csv.Sniffer` attempt (`primary sample = none` models the sniffer raising or
being unable to decide): when the primary attempt yields a candidate
delimiter it is returned, otherwise the deterministic fallback runs. -/
def sniff_delimiter (primary : String → Option String) (sample : String) : Option String :=
  match primary sample with
  | some d => if POSSIBLE_DELIMS.contains d then some d else sniffFallback sample
  | none => sniffFallback sample

/-- The `ValueError` message raised when no delimiter could be determined. -/
def configErrMsg : String :=
  "Could not detect a delimiter. Try providing --delimiter (e.g., --delimiter '\\t')."

/-- Python `delimiter or sniff_delimiter(text)`: `None` and `""` are falsy. -/
def pyOrOpt (d : Option String) (fallback : Option String) : Option String :=
  match d with
  | none => fallback
  | some x => if x = "" then fallback else some x

/-- Pad a row on the right with empty cells up to length `n`
(`row += [""] * (n - len(row))`). -/
def padTo (n : Nat) (r : List String) : List String :=
  r ++ List.replicate (n - r.length) ""

/-- Python `s.startswith(p)`: a character-level prefix test (this is what
`String.startsWith` means, stated over the character lists so that it
computes by kernel reduction). -/
def pyStartsWith (s p : String) : Bool := p.data.isPrefixOf s.data

/-- `looks_like_types` from `create_db.py`.  The float test
`hits / len(non_empty) >= 0.55` is modelled exactly as
`100 * hits >= 55 * len(non_empty)`. -/
def looks_like_types (cells : List String) : Bool :=
  let ne := cells.filter (fun c => pyStrip c != "")
  if ne.isEmpty then false
  else
    let hits := (ne.map normalize_sheet_type).countP
      (fun n => isKnownLabel n || pyStartsWith n "enum")
    decide (100 * hits ≥ 55 * ne.length)

/-- The row-disambiguation step: swap the type row and the name row when the
former does not look like types but the latter does. -/
def swapStep (t n : List String) : List String × List String :=
  if !looks_like_types t && looks_like_types n then (n, t) else (t, n)

/-- The part of `read_three_row_csv` that runs on the parsed rows: require at
least three rows, keep the first three, pad them to the maximal length, and
apply the disambiguation swap. -/
def processRows (rows : List (List String)) :
    Except String (List String × List String × List String) :=
  match rows with
  | r1 :: r2 :: r3 :: _ =>
    let m := max r1.length (max r2.length r3.length)
    .ok (padTo m r1, swapStep (padTo m r2) (padTo m r3))
  | l => .error ("Expected a file with at least 3 rows, got " ++ toString l.length ++ ".")

/-- `read_three_row_csv` from `create_db.py`, starting from the decoded text
(file access and byte decoding happen before this logic) and parameterised by
the `csv.Sniffer` attempt as in `sniff_delimiter`.  A delimiter string that
is not exactly one character would make `csv.reader` raise a `TypeError`. -/
def readThreeRowsText (primary : String → Option String) (text : String)
    (delimiter : Option String) :
    Except String (List String × List String × List String) :=
  match pyOrOpt delimiter (sniff_delimiter primary text) with
  | none => .error configErrMsg
  | some u =>
    match u.data with
    | [] => .error configErrMsg
    | [c] => (csvParse c text).bind processRows
    | _ => .error "\"delimiter\" must be a 1-character string"

/-- Spec-side definition, for comparison with the code's
`is_valid_identifier`: a name is "simple" if it is a lowercase letter or
underscore followed by zero or more lowercase letters, digits, or
underscores, and nothing else (section 4.1 of the specification). -/
def simpleNameSpec (s : String) : Bool :=
  match s.data with
  | [] => false
  | c :: cs => isIdentStart c && cs.all isIdentChar

/-- Spec-side definition, for comparison with the code's `looks_like_types`:
take the non-empty cells; if none, false; else normalize each and count how
many are an exact key of the simple-type table, exactly enum, or start with
enum; true iff that count over the non-empty count is at least 0.55
(section 4.4 of the specification; the ratio test is the exact rational
form of the 0.55 threshold). -/
def looksLikeTypesSpec (cells : List String) : Bool :=
  let ne := cells.filter (fun c => pyStrip c != "")
  if ne.isEmpty then false
  else
    let hits := (ne.map normalize_sheet_type).countP
      (fun n => (SIMPLE_TYPE_MAP.any (fun p => p.1 = n)) || n = "enum" || pyStartsWith n "enum")
    decide (100 * hits ≥ 55 * ne.length)

/-- Split a character list at every newline character (the inverse of
joining with a newline, for lines that contain no newline themselves).
The accumulator holds the current line, reversed. -/
def splitNlAux : List Char → List Char → List String
  | [], acc => [String.mk acc.reverse]
  | c :: rest, acc =>
    if c = '\n' then String.mk acc.reverse :: splitNlAux rest []
    else splitNlAux rest (c :: acc)

/-- The lines of a text, splitting at every newline character. -/
def textLines (s : String) : List String := splitNlAux s.data []

/-!  Theorems.  -/

/-- C3: mapping a label normalizing to enum returns the quoted column name
with no warnings for a non-empty column, and the empty type with the
enum-skipped warning for an empty column; analogously for
enum (multi select) with the array marker appended. -/
theorem c3_enum_type_mapping (L c : String) :
    (normalize_sheet_type L = "enum" →
      map_type L c =
        if c = "" then (("", ["Enum column without a name; skipped."]) : String × List String)
        else (quote_ident c, []))
    ∧ (normalize_sheet_type L = "enum (multi select)" →
      map_type L c =
        if c = "" then
          (("", ["Enum (multi select) column without a name; skipped."]) : String × List String)
        else (quote_ident c ++ "[]", [])) := by
  constructor
  · intro h
    simp [map_type, h]
  · intro h
    simp [map_type, h]

/-- Witness for C3 at the spec's concrete examples. -/
theorem c3_enum_type_mapping_witness :
    map_type "Enum" "status" = ("status", [])
    ∧ map_type "Enum (multi select)" "tags" = ("tags[]", [])
    ∧ map_type "Enum" "" = ("", ["Enum column without a name; skipped."])
    ∧ map_type "Enum (multi select)" "" =
        ("", ["Enum (multi select) column without a name; skipped."]) := by
  refine ⟨?_, ?_, ?_, ?_⟩
  · rw [(c3_enum_type_mapping "Enum" "status").1 (by decide), if_neg (by decide)]
    decide
  · rw [(c3_enum_type_mapping "Enum (multi select)" "tags").2 (by decide), if_neg (by decide)]
    decide
  · rw [(c3_enum_type_mapping "Enum" "").1 (by decide), if_pos rfl]
  · rw [(c3_enum_type_mapping "Enum (multi select)" "").2 (by decide), if_pos rfl]

/-- C4: a label whose normalization is neither of the enum labels nor a key
of the simple-type table maps, without raising, to the fallback type text
plus exactly one warning quoting the original, untrimmed label text. -/
theorem c4_unrecognized_label (L c : String)
    (h1 : normalize_sheet_type L ≠ "enum")
    (h2 : normalize_sheet_type L ≠ "enum (multi select)")
    (h3 : ∀ p ∈ SIMPLE_TYPE_MAP, p.1 ≠ normalize_sheet_type L) :
    map_type L c =
      ("text",
       ["Unrecognized type '" ++ L ++ "' for column '" ++ c ++ "', defaulting to text."]) := by
  have hl : lookupSimple (normalize_sheet_type L) = none := by
    unfold lookupSimple
    rw [List.find?_eq_none.mpr]
    · rfl
    · intro p hp
      simpa using h3 p hp
  simp only [map_type]
  rw [if_neg h1, if_neg h2, hl]

/-- Witness for C4 at the spec's concrete example. -/
theorem c4_unrecognized_label_witness :
    map_type "Foo" "bar" =
      ("text", ["Unrecognized type 'Foo' for column 'bar', defaulting to text."]) := by
  rw [c4_unrecognized_label "Foo" "bar" (by decide) (by decide) (by decide)]
  decide

/-- C2 counterexample: for the end-to-end input of the specification the
generated text has eight lines, not nine as the claim states (the generated
text itself is exactly the spec's block, as the amended theorem shows). -/
theorem c2_counterexample :
    (textLines (generate_create_table_sql "leads" ["Name", "Status"] ["String", "Enum"]
      ["full_name", "status"])).length = 8 ∧ (8 : Nat) ≠ 9 := by
  constructor
  · set_option maxRecDepth 4000 in decide
  · decide

/-- C2 (amended): for the end-to-end scenario the generator returns exactly
the text block shown in the specification — which has eight lines. -/
theorem c2_end_to_end :
    generate_create_table_sql "leads" ["Name", "Status"] ["String", "Enum"]
      ["full_name", "status"] =
      "-- Generated by generate_supabase_schema.py\n-- Table: leads\ncreate table if not exists leads (\n  -- Surrogate primary key for internal use\n  id uuid primary key default gen_random_uuid(),\n  full_name text,  -- Name\n  status status  -- Status\n);"
    ∧ (textLines (generate_create_table_sql "leads" ["Name", "Status"] ["String", "Enum"]
        ["full_name", "status"])).length = 8 := by
  constructor
  · set_option maxRecDepth 4000 in decide
  · set_option maxRecDepth 4000 in decide

/-- If the regex tail matcher accepts, the characters are all identifier
characters, or they are identifier characters followed by one final
newline. -/
theorem identTail_cases : ∀ cs : List Char, identTail cs = true →
    cs.all isIdentChar = true ∨ ∃ core, cs = core ++ ['\n'] ∧ core.all isIdentChar = true := by
  intro cs
  induction cs with
  | nil => intro _; left; rfl
  | cons c cs ih =>
    intro h
    simp only [identTail, Bool.or_eq_true, Bool.and_eq_true, decide_eq_true_eq,
      List.isEmpty_iff] at h
    rcases h with ⟨hc, he⟩ | ⟨hc, ht⟩
    · right
      exact ⟨[], by simp [hc, he], rfl⟩
    · rcases ih ht with hall | ⟨core, hcore, hallc⟩
      · left; simp [List.all_cons, hc, hall]
      · right
        exact ⟨c :: core, by simp [hcore], by simp [List.all_cons, hc, hallc]⟩

/-- A string of identifier characters passes the regex tail matcher. -/
theorem identTail_of_all : ∀ cs : List Char, cs.all isIdentChar = true → identTail cs = true := by
  intro cs
  induction cs with
  | nil => intro _; rfl
  | cons c cs ih =>
    intro h
    simp only [List.all_cons, Bool.and_eq_true] at h
    simp [identTail, h.1, ih h.2]

/-- A string of identifier characters followed by a final newline passes the
regex tail matcher (the Python dollar-anchor artefact). -/
theorem identTail_newline : ∀ core : List Char, core.all isIdentChar = true →
    identTail (core ++ ['\n']) = true := by
  intro core
  induction core with
  | nil => intro _; rfl
  | cons c cs ih =>
    intro h
    simp only [List.all_cons, Bool.and_eq_true] at h
    simp [identTail, h.1, ih h.2]

/-- Doubling quotes never shortens a string. -/
theorem escapeQuotes_length : ∀ l : List Char, l.length ≤ (escapeQuotes l).length := by
  intro l
  induction l with
  | nil => simp [escapeQuotes]
  | cons c cs ih =>
    by_cases hc : c = '"'
    · simp only [escapeQuotes, if_pos hc, List.length_cons]
      omega
    · simp only [escapeQuotes, if_neg hc, List.length_cons]
      omega

/-- C7 counterexample: the name consisting of a lowercase letter followed by
a newline does not match the spec's simple-name pattern, yet `quote_ident`
returns it unchanged (Python's dollar anchor also matches just before a
trailing newline). -/
theorem c7_counterexample :
    simpleNameSpec "a\n" = false ∧ quote_ident "a\n" = "a\n" := by decide

/-- C7 (amended): `quote_ident` returns a name unchanged exactly when it
matches the simple-name pattern optionally followed by one trailing newline
(the Python dollar-anchor artefact); every other name is returned wrapped in
double quotes with each embedded double quote doubled. -/
theorem c7_quote_ident_amended (name : String) :
    (quote_ident name = name ↔ is_valid_identifier name = true)
    ∧ (is_valid_identifier name = true ↔
        (simpleNameSpec name = true
          ∨ ∃ core : String, name = core ++ "\n" ∧ simpleNameSpec core = true))
    ∧ (is_valid_identifier name = false →
        quote_ident name = "\"" ++ String.mk (escapeQuotes name.data) ++ "\"") := by
  obtain ⟨l⟩ := name
  have hwrap : is_valid_identifier ⟨l⟩ = false →
      quote_ident ⟨l⟩ = "\"" ++ String.mk (escapeQuotes l) ++ "\"" := by
    intro h
    simp only [quote_ident, h, Bool.false_eq_true, if_false]
    apply String.ext
    simp [String.data_append]
  have hne : is_valid_identifier ⟨l⟩ = false → quote_ident ⟨l⟩ ≠ ⟨l⟩ := by
    intro h heq
    rw [hwrap h] at heq
    have hlen := congrArg (fun s : String => s.data.length) heq
    simp only [String.data_append] at hlen
    have := escapeQuotes_length l
    simp at hlen
    omega
  refine ⟨⟨?_, ?_⟩, ⟨?_, ?_⟩, hwrap⟩
  · intro heq
    cases hv : is_valid_identifier ⟨l⟩ with
    | true => rfl
    | false => exact absurd heq (hne hv)
  · intro hv
    simp [quote_ident, hv]
  · intro hv
    cases l with
    | nil => exact absurd hv (by decide)
    | cons c cs =>
      simp only [is_valid_identifier, Bool.and_eq_true] at hv
      rcases identTail_cases cs hv.2 with hall | ⟨core, hcore, hallc⟩
      · left
        simp [simpleNameSpec, hv.1, hall]
      · right
        refine ⟨⟨c :: core⟩, ?_, ?_⟩
        · apply String.ext
          simp [String.data_append, hcore]
        · simp [simpleNameSpec, hv.1, hallc]
  · intro hcase
    rcases hcase with hs | ⟨core, heq, hs⟩
    · cases l with
      | nil => exact absurd hs (by decide)
      | cons c cs =>
        simp only [simpleNameSpec, Bool.and_eq_true] at hs
        simp [is_valid_identifier, hs.1, identTail_of_all cs hs.2]
    · obtain ⟨lc⟩ := core
      have hd := congrArg String.data heq
      simp only [String.data_append] at hd
      cases lc with
      | nil => exact absurd hs (by decide)
      | cons c cs =>
        simp only [List.cons_append] at hd
        simp only [simpleNameSpec, Bool.and_eq_true] at hs
        subst hd
        simp [is_valid_identifier, hs.1, identTail_newline cs hs.2]

/-- Witness for C7: the wrapped-and-doubled branch applied at the spec's
examples. -/
theorem c7_quote_ident_amended_witness :
    quote_ident "weird name" = "\"" ++ String.mk (escapeQuotes "weird name".data) ++ "\""
    ∧ quote_ident "weird name" = "\"weird name\""
    ∧ quote_ident "Column\"X" = "\"Column\"\"X\"" :=
  ⟨(c7_quote_ident_amended "weird name").2.2 (by decide), by decide, by decide⟩

/-- Characterisation of the best-delimiter fold: either nothing beats the
running bound and the incoming best survives, or the result is the last
candidate that strictly beat everything before it — so it strictly exceeds
the bound and every earlier candidate, and is not exceeded by any later
candidate. -/
theorem pickGo_spec (f : String → Nat) :
    ∀ (ds : List String) (best : Option String) (bc : Nat),
      (pickGo f ds best bc = best ∧ ∀ d ∈ ds, f d ≤ bc)
      ∨ ∃ pre d post, ds = pre ++ d :: post ∧ pickGo f ds best bc = some d ∧ bc < f d
          ∧ (∀ x ∈ pre, f x < f d) ∧ (∀ y ∈ post, f y ≤ f d) := by
  intro ds
  induction ds with
  | nil => intro best bc; left; exact ⟨rfl, by simp⟩
  | cons d ds ih =>
    intro best bc
    by_cases h : bc < f d
    · rcases ih (some d) (f d) with ⟨heq, hle⟩ | ⟨pre, d2, post, hds, hres, hlt, hpre, hpost⟩
      · right
        refine ⟨[], d, ds, rfl, ?_, h, by simp, hle⟩
        simp [pickGo, if_pos h, heq]
      · right
        refine ⟨d :: pre, d2, post, by simp [hds], ?_, h.trans hlt, ?_, hpost⟩
        · simp [pickGo, if_pos h, hres]
        · intro x hx
          rcases List.mem_cons.mp hx with rfl | hx2
          · exact hlt
          · exact hpre x hx2
    · rcases ih best bc with ⟨heq, hle⟩ | ⟨pre, d2, post, hds, hres, hlt, hpre, hpost⟩
      · left
        refine ⟨by simp [pickGo, if_neg h, heq], ?_⟩
        intro x hx
        rcases List.mem_cons.mp hx with rfl | hx2
        · omega
        · exact hle x hx2
      · right
        refine ⟨d :: pre, d2, post, by simp [hds], ?_, hlt, ?_, hpost⟩
        · simp [pickGo, if_neg h, hres]
        · intro x hx
          rcases List.mem_cons.mp hx with rfl | hx2
          · omega
          · exact hpre x hx2

/-- C5: the sniffing fallback returns none when the sample has no non-blank
lines; on the first non-blank line it returns none exactly when no candidate
splits it into more than zero fields, and otherwise it returns a candidate
achieving the greatest field count, the leftmost in priority order winning
ties (every earlier candidate is strictly below it, no candidate exceeds
it). -/
theorem c5_sniff_fallback (sample : String) :
    (nonBlankLines sample = [] → sniffFallback sample = none)
    ∧ (∀ L rest, nonBlankLines sample = L :: rest →
        ((∀ dd ∈ POSSIBLE_DELIMS, lineFieldCount (delimChar dd) L = 0) →
          sniffFallback sample = none)
        ∧ ((∃ dd ∈ POSSIBLE_DELIMS, 0 < lineFieldCount (delimChar dd) L) →
          (sniffFallback sample).isSome = true)
        ∧ (∀ dres, sniffFallback sample = some dres →
            dres ∈ POSSIBLE_DELIMS ∧ 0 < lineFieldCount (delimChar dres) L
            ∧ (∀ dd ∈ POSSIBLE_DELIMS,
                lineFieldCount (delimChar dd) L ≤ lineFieldCount (delimChar dres) L)
            ∧ ∃ pre post, POSSIBLE_DELIMS = pre ++ dres :: post
                ∧ ∀ x ∈ pre,
                    lineFieldCount (delimChar x) L < lineFieldCount (delimChar dres) L)) := by
  constructor
  · intro h
    simp [sniffFallback, h]
  · intro L rest h
    have hfb : sniffFallback sample =
        pickGo (fun dd => lineFieldCount (delimChar dd) L) POSSIBLE_DELIMS none 0 := by
      simp [sniffFallback, h]
    rcases pickGo_spec (fun dd => lineFieldCount (delimChar dd) L) POSSIBLE_DELIMS none 0 with
      ⟨heq, hle⟩ | ⟨pre, d2, post, hds, hres, hlt, hpre, hpost⟩
    · refine ⟨fun _ => by rw [hfb, heq], fun hex => ?_, fun dres hd => ?_⟩
      · rcases hex with ⟨dd, hmem, hpos⟩
        have := hle dd hmem
        omega
      · rw [hfb, heq] at hd
        exact absurd hd (by simp)
    · have hmemd : d2 ∈ POSSIBLE_DELIMS := by
        rw [hds]; exact List.mem_append_right _ (List.mem_cons_self _ _)
      refine ⟨fun hz => ?_, fun _ => by rw [hfb, hres]; rfl, fun dres hd => ?_⟩
      · have := hz d2 hmemd
        omega
      · rw [hfb, hres] at hd
        injection hd with hd2
        subst hd2
        refine ⟨hmemd, hlt, fun dd hmem => ?_, pre, post, hds, hpre⟩
        rw [hds] at hmem
        rcases List.mem_append.mp hmem with hx | hx
        · exact (hpre dd hx).le
        · rcases List.mem_cons.mp hx with rfl | hx2
          · exact le_refl _
          · exact hpost dd hx2

/-- Witness for C5: on the sample with commas and a tab, the fallback picks
the comma (leftmost among the tied maximal candidates). -/
theorem c5_sniff_fallback_witness :
    "," ∈ POSSIBLE_DELIMS ∧ 0 < lineFieldCount (delimChar ",") "a,b\tc".data
    ∧ (∀ dd ∈ POSSIBLE_DELIMS,
        lineFieldCount (delimChar dd) "a,b\tc".data ≤ lineFieldCount (delimChar ",") "a,b\tc".data)
    ∧ ∃ pre post, POSSIBLE_DELIMS = pre ++ "," :: post
        ∧ ∀ x ∈ pre,
            lineFieldCount (delimChar x) "a,b\tc".data < lineFieldCount (delimChar ",") "a,b\tc".data :=
  (((c5_sniff_fallback "a,b\tc").2 "a,b\tc".data [] (by decide)).2.2) "," (by decide)

/-- The code's known-label-or-enum test agrees with the spec's
simple-key-or-exactly-enum-or-starts-with-enum test: the only difference is
the explicit multi-select label, which starts with enum anyway. -/
theorem knownPred_eq (n : String) :
    (isKnownLabel n || pyStartsWith n "enum") =
    ((SIMPLE_TYPE_MAP.any fun p => p.1 = n) || n = "enum" || pyStartsWith n "enum") := by
  by_cases hn : n = "enum (multi select)"
  · subst hn; decide
  · simp [isKnownLabel, hn, Bool.or_assoc]

/-- C6: the reader's `looks_like_types` agrees with the spec's definition
(false on rows with no non-empty cell, else the 0.55 hit-ratio test); the
disambiguation step swaps the padded type row and name row exactly when the
former fails the test and the latter passes it; and the spec's reversed
example is swapped. -/
theorem c6_row_swap_heuristic :
    (∀ cells, looks_like_types cells = looksLikeTypesSpec cells)
    ∧ (∀ t n, swapStep t n =
        if looks_like_types t = false ∧ looks_like_types n = true then (n, t) else (t, n))
    ∧ (∀ (r1 r2 r3 : List String) (rest : List (List String)),
        processRows (r1 :: r2 :: r3 :: rest) =
          .ok (padTo (max r1.length (max r2.length r3.length)) r1,
               swapStep (padTo (max r1.length (max r2.length r3.length)) r2)
                        (padTo (max r1.length (max r2.length r3.length)) r3)))
    ∧ looks_like_types ["Lead Name", "Status", "Created"] = false
    ∧ looks_like_types ["String", "Enum", "DateTime"] = true
    ∧ swapStep ["Lead Name", "Status", "Created"] ["String", "Enum", "DateTime"] =
        (["String", "Enum", "DateTime"], ["Lead Name", "Status", "Created"]) := by
  refine ⟨?_, ?_, ?_, by decide, by decide, by decide⟩
  · intro cells
    have hfun : (fun n => isKnownLabel n || pyStartsWith n "enum") =
        (fun n => (SIMPLE_TYPE_MAP.any fun p => p.1 = n) || n = "enum" || pyStartsWith n "enum") :=
      funext knownPred_eq
    simp only [looks_like_types, looksLikeTypesSpec, hfun]
  · intro t n
    cases ht : looks_like_types t <;> cases hn : looks_like_types n <;>
      simp [swapStep, ht, hn]
  · intro r1 r2 r3 rest
    rfl

/-- Any error produced inside the CSV state machine is the new-line error,
never the could-not-detect-a-delimiter error. -/
theorem csvParseAux_no_config (d : Char) :
    ∀ (l : List Char) (st : CsvSt) (fld : List Char) (row : List String)
      (rows : List (List String)),
      csvParseAux d l st fld row rows ≠ .error configErrMsg := by
  intro l
  induction l with
  | nil => intro st fld row rows; cases st <;> simp [csvParseAux]
  | cons c cs ih =>
    intro st fld row rows
    cases st <;> simp only [csvParseAux] <;> repeat' split
    all_goals first
      | exact ih _ _ _ _
      | (intro hcontra; injection hcontra with h2; exact absurd h2 (by decide))

/-- The too-few-rows message never coincides with the
could-not-detect-a-delimiter message (their first characters differ). -/
theorem expectedMsg_ne_config (x : String) :
    ("Expected a file with at least 3 rows, got " ++ x ++ "." : String) ≠ configErrMsg := by
  intro h
  have h2 := congrArg (fun s : String => s.data.head?) h
  have h3 : (some 'E' : Option Char) = some 'C' := h2
  exact absurd h3 (by decide)

/-- The too-few-rows error is never the could-not-detect-a-delimiter
error. -/
theorem processRows_no_config :
    ∀ rows, processRows rows ≠ .error configErrMsg := by
  intro rows
  match rows with
  | r1 :: r2 :: r3 :: rest => simp [processRows]
  | [] | [r1] | [r1, r2] =>
    intro h
    simp only [processRows] at h
    injection h with h2
    exact expectedMsg_ne_config _ h2

/-- The fold over the candidate list can only return the incoming best or a
member of the list. -/
theorem pickGo_mem (f : String → Nat) :
    ∀ (ds : List String) (best : Option String) (bc : Nat) (u : String),
      pickGo f ds best bc = some u → best = some u ∨ u ∈ ds := by
  intro ds
  induction ds with
  | nil => intro best bc u h; exact Or.inl h
  | cons d ds ih =>
    intro best bc u h
    simp only [pickGo] at h
    split at h
    · rcases ih _ _ _ h with h2 | h2
      · injection h2 with h3; exact Or.inr (by simp [h3])
      · exact Or.inr (List.mem_cons_of_mem _ h2)
    · rcases ih _ _ _ h with h2 | h2
      · exact Or.inl h2
      · exact Or.inr (List.mem_cons_of_mem _ h2)

/-- The fallback only returns candidate delimiters. -/
theorem sniffFallback_mem (sample : String) (u : String)
    (h : sniffFallback sample = some u) : u ∈ POSSIBLE_DELIMS := by
  unfold sniffFallback at h
  split at h
  · exact absurd h (by simp)
  · rcases pickGo_mem _ _ _ _ _ h with h2 | h2
    · exact absurd h2 (by simp)
    · exact h2

/-- `sniff_delimiter` only returns candidate delimiters, whichever path
produced the result. -/
theorem sniff_delimiter_mem (primary : String → Option String) (sample : String)
    (u : String) (h : sniff_delimiter primary sample = some u) :
    u ∈ POSSIBLE_DELIMS := by
  unfold sniff_delimiter at h
  cases hp : primary sample with
  | none => rw [hp] at h; exact sniffFallback_mem sample u h
  | some d =>
    rw [hp] at h
    have h2 : (if POSSIBLE_DELIMS.contains d then some d else sniffFallback sample) = some u := h
    split at h2
    · rename_i hc
      injection h2 with h3
      rw [← h3]
      simpa [List.contains] using hc
    · exact sniffFallback_mem sample u h2

/-- C10: passing the empty string as the explicit delimiter behaves exactly
like passing no delimiter, and the could-not-detect-a-delimiter error is
raised precisely when the sniffer returns none. -/
theorem c10_empty_delimiter (primary : String → Option String) (text : String) :
    readThreeRowsText primary text (some "") = readThreeRowsText primary text none
    ∧ (readThreeRowsText primary text (some "") = .error configErrMsg ↔
        sniff_delimiter primary text = none) := by
  have h1 : readThreeRowsText primary text (some "") = readThreeRowsText primary text none := rfl
  refine ⟨h1, ?_⟩
  rw [h1]
  have hbind : ∀ c : Char, (csvParse c text).bind processRows ≠ .error configErrMsg := by
    intro c hcontra
    cases hcp : csvParse c text with
    | error e =>
      rw [hcp] at hcontra
      have h3 : (Except.error e : Except String (List String × List String × List String)) =
          .error configErrMsg := hcontra
      injection h3 with h4
      rw [h4] at hcp
      exact csvParseAux_no_config c text.data .sr [] [] [] hcp
    | ok rows =>
      rw [hcp] at hcontra
      exact processRows_no_config rows hcontra
  constructor
  · intro h
    by_contra hne
    rcases Option.ne_none_iff_exists'.mp hne with ⟨u, hu⟩
    have hmem := sniff_delimiter_mem primary text u hu
    simp only [readThreeRowsText, pyOrOpt, hu] at h
    have hcases : u = "," ∨ u = "\t" ∨ u = ";" ∨ u = "|" := by
      simpa [POSSIBLE_DELIMS] using hmem
    rcases hcases with rfl | rfl | rfl | rfl
    · exact hbind ',' h
    · exact hbind '\t' h
    · exact hbind ';' h
    · exact hbind '|' h
  · intro h
    simp [readThreeRowsText, pyOrOpt, h]

/-- C8 counterexample: on the parsed rows `[[], ["x"], ["string"]]` the
disambiguation swap fires, so the returned type-label row is not the padded
second parsed row — the cell "x" is no longer at its position. -/
theorem c8_counterexample :
    processRows [[], ["x"], ["string"]] = .ok ([""], ["string"], ["x"])
    ∧ (["string"] : List String) ≠ ["x"] ++ List.replicate (1 - (["x"] : List String).length) "" := by
  constructor
  · rfl
  · decide

/-- C8 (amended): the three returned rows all have length equal to the
maximum of the first three parsed rows' lengths, each row being extended on
the right with empty cells and never truncated; the descriptions row
preserves every original cell at its position, and the type/name rows do too
up to the disambiguation step possibly exchanging those two rows wholesale.
In particular the full reader only returns triples of equal length. -/
theorem c8_padding_invariant :
    (∀ (r1 r2 r3 : List String) (rest : List (List String)) (dsc t n : List String),
      processRows (r1 :: r2 :: r3 :: rest) = .ok (dsc, t, n) →
      ∃ m, m = max r1.length (max r2.length r3.length)
        ∧ dsc.length = m ∧ t.length = m ∧ n.length = m
        ∧ dsc = r1 ++ List.replicate (m - r1.length) ""
        ∧ ((t = r2 ++ List.replicate (m - r2.length) ""
              ∧ n = r3 ++ List.replicate (m - r3.length) "")
          ∨ (t = r3 ++ List.replicate (m - r3.length) ""
              ∧ n = r2 ++ List.replicate (m - r2.length) "")))
    ∧ (∀ (primary : String → Option String) (text : String) (delim : Option String)
        (dsc t n : List String),
        readThreeRowsText primary text delim = .ok (dsc, t, n) →
        dsc.length = t.length ∧ t.length = n.length) := by
  have hpart1 : ∀ (r1 r2 r3 : List String) (rest : List (List String)) (dsc t n : List String),
      processRows (r1 :: r2 :: r3 :: rest) = .ok (dsc, t, n) →
      ∃ m, m = max r1.length (max r2.length r3.length)
        ∧ dsc.length = m ∧ t.length = m ∧ n.length = m
        ∧ dsc = r1 ++ List.replicate (m - r1.length) ""
        ∧ ((t = r2 ++ List.replicate (m - r2.length) ""
              ∧ n = r3 ++ List.replicate (m - r3.length) "")
          ∨ (t = r3 ++ List.replicate (m - r3.length) ""
              ∧ n = r2 ++ List.replicate (m - r2.length) "")) := by
    intro r1 r2 r3 rest dsc t n h
    simp only [processRows, Except.ok.injEq, Prod.mk.injEq] at h
    obtain ⟨hd, hs⟩ := h
    refine ⟨max r1.length (max r2.length r3.length), rfl, ?_⟩
    unfold swapStep at hs
    split at hs
    · obtain ⟨ht, hn⟩ := Prod.mk.injEq .. ▸ hs
      subst hd; subst ht; subst hn
      refine ⟨?_, ?_, ?_, rfl, Or.inr ⟨rfl, rfl⟩⟩ <;> simp [padTo]
    · obtain ⟨ht, hn⟩ := Prod.mk.injEq .. ▸ hs
      subst hd; subst ht; subst hn
      refine ⟨?_, ?_, ?_, rfl, Or.inl ⟨rfl, rfl⟩⟩ <;> simp [padTo]
  refine ⟨hpart1, ?_⟩
  intro primary text delim dsc t n h
  have hpr : ∃ rows, processRows rows = .ok (dsc, t, n) := by
    unfold readThreeRowsText at h
    cases hor : pyOrOpt delim (sniff_delimiter primary text) with
    | none => rw [hor] at h; exact absurd h (by simp)
    | some u =>
      rw [hor] at h
      have h2 : (match u.data with
          | [] => (Except.error configErrMsg :
              Except String (List String × List String × List String))
          | [c] => (csvParse c text).bind processRows
          | _ => .error "\"delimiter\" must be a 1-character string") = .ok (dsc, t, n) := h
      cases hud : u.data with
      | nil => rw [hud] at h2; exact absurd h2 (by simp)
      | cons c cs =>
        cases cs with
        | nil =>
          rw [hud] at h2
          have h3 : (csvParse c text).bind processRows = .ok (dsc, t, n) := h2
          cases hcp : csvParse c text with
          | error e => rw [hcp] at h3; exact absurd h3 (by simp [Except.bind])
          | ok rows => rw [hcp] at h3; exact ⟨rows, h3⟩
        | cons c2 cs2 => rw [hud] at h2; exact absurd h2 (by simp)
  rcases hpr with ⟨rows, hrows⟩
  match rows, hrows with
  | r1 :: r2 :: r3 :: rest, hrows =>
    rcases hpart1 r1 r2 r3 rest dsc t n hrows with ⟨m, _, h1, h2, h3, _⟩
    exact ⟨h1.trans h2.symm, h2.trans h3.symm⟩
  | [], hrows => exact absurd hrows (by simp [processRows])
  | [a1], hrows => exact absurd hrows (by simp [processRows])
  | [a1, a2], hrows => exact absurd hrows (by simp [processRows])

/-- Witness for C8, applying the padding part at a concrete parsed input and
the reader part at a concrete text. -/
theorem c8_padding_invariant_witness :
    (∃ m, m = max (["a"] : List String).length
            (max (["x", "y"] : List String).length (["b"] : List String).length)
      ∧ (["a", ""] : List String).length = m ∧ (["x", "y"] : List String).length = m
      ∧ (["b", ""] : List String).length = m
      ∧ (["a", ""] : List String) = ["a"] ++ List.replicate (m - (["a"] : List String).length) ""
      ∧ (((["x", "y"] : List String) =
            ["x", "y"] ++ List.replicate (m - (["x", "y"] : List String).length) ""
          ∧ (["b", ""] : List String) = ["b"] ++ List.replicate (m - (["b"] : List String).length) "")
        ∨ ((["x", "y"] : List String) =
            ["b"] ++ List.replicate (m - (["b"] : List String).length) ""
          ∧ (["b", ""] : List String) =
            ["x", "y"] ++ List.replicate (m - (["x", "y"] : List String).length) "")))
    ∧ ((["h"] : List String).length = (["i"] : List String).length
        ∧ (["i"] : List String).length = (["j"] : List String).length) :=
  ⟨c8_padding_invariant.1 ["a"] ["x", "y"] ["b"] [] ["a", ""] ["x", "y"] ["b", ""] (by rfl),
   c8_padding_invariant.2 (fun _ => none) "h\ni\nj" none ["h"] ["i"] ["j"] (by rfl)⟩

/-- Appending respects `Forall₂`. -/
theorem forall2_append {α : Type} {R : α → α → Prop} :
    ∀ {a b c d : List α}, List.Forall₂ R a b → List.Forall₂ R c d →
      List.Forall₂ R (a ++ c) (b ++ d) := by
  intro a b c d h1 h2
  induction h1 with
  | nil => simpa using h2
  | cons ha _ ih => exact List.Forall₂.cons ha ih

/-- Zipping two equally long first rows against the same tail produces
pointwise equal second components. -/
theorem zip_snd_congr : ∀ (d₁ d₂ : List String) (l : List (String × String)),
    d₁.length = d₂.length →
    List.Forall₂ (fun a b : String × String × String => a.2 = b.2) (d₁.zip l) (d₂.zip l) := by
  intro d₁
  induction d₁ with
  | nil =>
    intro d₂ l h
    cases d₂ with
    | nil => exact List.Forall₂.nil
    | cons b d₂ => simp at h
  | cons a d₁ ih =>
    intro d₂ l h
    cases d₂ with
    | nil => simp at h
    | cons b d₂ =>
      cases l with
      | nil => exact List.Forall₂.nil
      | cons x l => exact List.Forall₂.cons rfl (ih d₂ l (by simpa using h))

/-- The warnings accumulated by the column pass do not depend on the
description cells. -/
theorem buildCols_snd_congr : ∀ (l₁ l₂ : List (String × String × String)),
    List.Forall₂ (fun a b => a.2 = b.2) l₁ l₂ →
    (buildCols l₁).2 = (buildCols l₂).2 := by
  intro l₁ l₂ h
  induction h with
  | nil => rfl
  | cons ha hrest ih =>
    rename_i a b l₁' l₂'
    obtain ⟨da, ta, ca⟩ := a
    obtain ⟨db, tb2, cb⟩ := b
    have hta : ta = tb2 := congrArg Prod.fst ha
    have hca : ca = cb := congrArg Prod.snd ha
    subst hta; subst hca
    simp only [buildCols]
    by_cases hcol : pyStrip ca = ""
    · rw [if_pos hcol, if_pos hcol]; exact ih
    · rw [if_neg hcol, if_neg hcol]
      by_cases hpw : (map_type (pyStrip ta) (pyStrip ca)).1 = ""
      · rw [if_pos hpw, if_pos hpw]
        simpa using ih
      · rw [if_neg hpw, if_neg hpw]
        simpa using ih

/-- The column definitions produced by the column pass do not depend on the
description cells (pointwise equal first components). -/
theorem buildCols_fst_congr : ∀ (l₁ l₂ : List (String × String × String)),
    List.Forall₂ (fun a b => a.2 = b.2) l₁ l₂ →
    List.Forall₂ (fun p q : String × String => p.1 = q.1)
      (buildCols l₁).1 (buildCols l₂).1 := by
  intro l₁ l₂ h
  induction h with
  | nil => exact List.Forall₂.nil
  | cons ha hrest ih =>
    rename_i a b l₁' l₂'
    obtain ⟨da, ta, ca⟩ := a
    obtain ⟨db, tb2, cb⟩ := b
    have hta : ta = tb2 := congrArg Prod.fst ha
    have hca : ca = cb := congrArg Prod.snd ha
    subst hta; subst hca
    simp only [buildCols]
    by_cases hcol : pyStrip ca = ""
    · rw [if_pos hcol, if_pos hcol]; exact ih
    · rw [if_neg hcol, if_neg hcol]
      by_cases hpw : (map_type (pyStrip ta) (pyStrip ca)).1 = ""
      · rw [if_pos hpw, if_pos hpw]
        simpa using ih
      · rw [if_neg hpw, if_neg hpw]
        exact List.Forall₂.cons rfl (by simpa using ih)

/-- Pointwise equal first components give equal first-component lists. -/
theorem forall2_fst_map : ∀ {c₁ c₂ : List (String × String)},
    List.Forall₂ (fun p q : String × String => p.1 = q.1) c₁ c₂ →
    c₁.map Prod.fst = c₂.map Prod.fst := by
  intro c₁ c₂ h
  induction h with
  | nil => rfl
  | cons ha _ ih => simp [ha, ih]

/-- Emission maps pointwise-equal definitions to lines that differ at most
in the inline comment. -/
theorem emitCols_congr : ∀ {c₁ c₂ : List (String × String)},
    List.Forall₂ (fun p q : String × String => p.1 = q.1) c₁ c₂ →
    List.Forall₂
      (fun a b => a = b ∨ ∃ ds bl x y, a = colLine ds bl x ∧ b = colLine ds bl y)
      (emitCols c₁) (emitCols c₂) := by
  intro c₁ c₂ h
  induction h with
  | nil => exact List.Forall₂.nil
  | cons ha hrest ih =>
    rename_i p q l₁ l₂
    have hlen : l₁.isEmpty = l₂.isEmpty := by
      cases hrest with
      | nil => rfl
      | cons _ _ => rfl
    obtain ⟨pd, pc⟩ := p
    obtain ⟨qd, qc⟩ := q
    simp only [emitCols]
    exact List.Forall₂.cons
      (Or.inr ⟨pd, l₁.isEmpty, pc, qc, rfl, by rw [show qd = pd from ha.symm, hlen]⟩) ih

/-- C9: with the type-label and column-name rows fixed, any two description
rows of the same length yield the same accumulated warnings, the same
column-definition sequence, and line-for-line identical output except for
the inline comment attached to a column line. -/
theorem c9_descriptions_frame (tb : String) (ts ns d₁ d₂ : List String)
    (h : d₁.length = d₂.length) :
    (buildCols (d₁.zip (ts.zip ns))).2 = (buildCols (d₂.zip (ts.zip ns))).2
    ∧ (buildCols (d₁.zip (ts.zip ns))).1.map Prod.fst
        = (buildCols (d₂.zip (ts.zip ns))).1.map Prod.fst
    ∧ List.Forall₂
        (fun a b => a = b ∨ ∃ ds bl x y, a = colLine ds bl x ∧ b = colLine ds bl y)
        (ddlLines tb d₁ ts ns) (ddlLines tb d₂ ts ns) := by
  have hz := zip_snd_congr d₁ d₂ (ts.zip ns) h
  have hsnd := buildCols_snd_congr _ _ hz
  have hfst := buildCols_fst_congr _ _ hz
  refine ⟨hsnd, forall2_fst_map hfst, ?_⟩
  simp only [ddlLines]
  rw [hsnd]
  refine forall2_append (forall2_append (forall2_append ?_ (emitCols_congr hfst)) ?_) ?_
  · exact List.forall₂_same.mpr (fun x _ => Or.inl rfl)
  · exact List.forall₂_same.mpr (fun x _ => Or.inl rfl)
  · exact List.forall₂_same.mpr (fun x _ => Or.inl rfl)

/-- Witness for C9 at two concrete description rows. -/
theorem c9_descriptions_frame_witness :
    (buildCols ((["A"] : List String).zip ((["String"] : List String).zip ["x"]))).2
      = (buildCols ((["B"] : List String).zip ((["String"] : List String).zip ["x"]))).2
    ∧ (buildCols ((["A"] : List String).zip ((["String"] : List String).zip ["x"]))).1.map
        Prod.fst
      = (buildCols ((["B"] : List String).zip ((["String"] : List String).zip ["x"]))).1.map
        Prod.fst :=
  ⟨(c9_descriptions_frame "t" ["String"] ["x"] ["A"] ["B"] rfl).1,
   (c9_descriptions_frame "t" ["String"] ["x"] ["A"] ["B"] rfl).2.1⟩

/-- Two space-free prefixes followed by a space determine each other. -/
theorem splitAtSpace : ∀ (a x b y : List Char),
    (∀ ch ∈ a, ch ≠ ' ') → (∀ ch ∈ b, ch ≠ ' ') →
    a ++ ' ' :: x = b ++ ' ' :: y → a = b ∧ x = y := by
  intro a
  induction a with
  | nil =>
    intro x b y _ hb h
    cases b with
    | nil => simpa using h
    | cons c b2 =>
      simp only [List.nil_append, List.cons_append, List.cons.injEq] at h
      exact absurd h.1.symm (hb c (List.mem_cons_self c b2))
  | cons c a2 ih =>
    intro x b y ha hb h
    cases b with
    | nil =>
      simp only [List.cons_append, List.nil_append, List.cons.injEq] at h
      exact absurd h.1 (ha c (List.mem_cons_self c a2))
    | cons c2 b2 =>
      simp only [List.cons_append, List.cons.injEq] at h
      obtain ⟨hc, ht⟩ := h
      obtain ⟨h1, h2⟩ := ih x b2 y (fun ch hm => ha ch (List.mem_cons_of_mem _ hm))
        (fun ch hm => hb ch (List.mem_cons_of_mem _ hm)) ht
      exact ⟨by rw [hc, h1], h2⟩

/-- The head of a dropWhile result fails the predicate. -/
theorem head_dropWhile_not (p : Char → Bool) : ∀ (l : List Char) (c : Char),
    (l.dropWhile p).head? = some c → p c = false := by
  intro l
  induction l with
  | nil => intro c h; simp [List.dropWhile] at h
  | cons a l ih =>
    intro c h
    by_cases hp : p a
    · rw [List.dropWhile_cons_of_pos hp] at h
      exact ih c h
    · rw [List.dropWhile_cons_of_neg hp] at h
      have h2 : a = c := Option.some.inj h
      rw [Bool.not_eq_true] at hp
      rw [← h2]
      exact hp

/-- The last character of a stripped string is never whitespace. -/
theorem pyStripL_getLast_not_space (l : List Char) (c : Char)
    (h : (pyStripL l).getLast? = some c) : pyIsSpace c = false := by
  unfold pyStripL at h
  rw [List.getLast?_reverse] at h
  exact head_dropWhile_not pyIsSpace _ c h

/-- An identifier-start character is an identifier character. -/
theorem identStart_char (c : Char) (h : isIdentStart c = true) : isIdentChar c = true := by
  simp only [isIdentStart, Bool.or_eq_true] at h
  rcases h with h | h
  · simp [isIdentChar, h]
  · simp [isIdentChar, h]

/-- Identifier characters are never a space. -/
theorem identChar_ne_space (c : Char) (h : isIdentChar c = true) : c ≠ ' ' := by
  intro heq
  subst heq
  exact absurd h (by decide)

/-- A stripped string accepted by `is_valid_identifier` consists only of
identifier characters: the trailing-newline branch of the dollar anchor is
impossible because stripping removes a final newline. -/
theorem stripped_valid_chars (s : String) (h : is_valid_identifier (pyStrip s) = true) :
    ∀ ch ∈ (pyStrip s).data, isIdentChar ch = true := by
  cases hd : (pyStrip s).data with
  | nil =>
    rw [is_valid_identifier, hd] at h
    exact absurd h (by decide)
  | cons c cs =>
    rw [is_valid_identifier, hd] at h
    simp only [Bool.and_eq_true] at h
    obtain ⟨hstart, htail⟩ := h
    rcases identTail_cases cs htail with hall | ⟨core, hcore, hallc⟩
    · intro ch hm
      rcases List.mem_cons.mp hm with rfl | hm2
      · exact identStart_char ch hstart
      · exact List.all_eq_true.mp hall ch hm2
    · exfalso
      have hlast : (pyStrip s).data.getLast? = some '\n' := by
        rw [hd, hcore, show c :: (core ++ ['\n']) = (c :: core) ++ ['\n'] from rfl]
        exact List.getLast?_concat _
      have hns := pyStripL_getLast_not_space s.data '\n' hlast
      exact absurd hns (by decide)

/-- Every value the simple-type table can return. -/
theorem lookupSimple_values (k v : String) (h : lookupSimple k = some v) :
    v ∈ (["text", "timestamptz", "date", "time", "boolean", "numeric(12,2)",
          "numeric", "jsonb"] : List String) := by
  unfold lookupSimple at h
  rcases Option.map_eq_some'.mp h with ⟨p, hfind, rfl⟩
  have hmem := List.mem_of_find?_eq_some hfind
  have hall : ∀ q ∈ SIMPLE_TYPE_MAP,
      q.2 ∈ (["text", "timestamptz", "date", "time", "boolean", "numeric(12,2)",
              "numeric", "jsonb"] : List String) := by decide
  exact hall p hmem

/-- Every SQL type `map_type` can return: empty, a fixed simple type, the
quoted column name, or the quoted column name with the array marker. -/
theorem map_type_shapes (t c : String) :
    (map_type t c).1 = "" ∨
    (map_type t c).1 ∈ (["text", "timestamptz", "date", "time", "boolean",
        "numeric(12,2)", "numeric", "jsonb"] : List String) ∨
    (map_type t c).1 = quote_ident c ∨ (map_type t c).1 = quote_ident c ++ "[]" := by
  unfold map_type
  split
  · split
    · exact Or.inl rfl
    · exact Or.inr (Or.inr (Or.inl rfl))
  · split
    · split
      · exact Or.inl rfl
      · exact Or.inr (Or.inr (Or.inr rfl))
    · cases hl : lookupSimple (normalize_sheet_type t) with
      | some v =>
        simp only [hl]
        exact Or.inr (Or.inl (lookupSimple_values _ v hl))
      | none =>
        simp only [hl]
        exact Or.inr (Or.inl (by simp))

/-- Every column produced by the column pass records a stripped non-empty
column name and a non-empty mapped type, and its definition text is the
quoted name, a space, and the type. -/
theorem buildCols_mem : ∀ (l : List (String × String × String)) (p : String × String),
    p ∈ (buildCols l).1 →
    ∃ raw ty, pyStrip raw ≠ "" ∧ (map_type (pyStrip ty) (pyStrip raw)).1 ≠ ""
      ∧ p.1 = quote_ident (pyStrip raw) ++ " " ++ (map_type (pyStrip ty) (pyStrip raw)).1 := by
  intro l
  induction l with
  | nil => intro p hp; simp [buildCols] at hp
  | cons a rest ih =>
    obtain ⟨da, ta, ca⟩ := a
    intro p hp
    simp only [buildCols] at hp
    by_cases hcol : pyStrip ca = ""
    · rw [if_pos hcol] at hp
      exact ih p hp
    · rw [if_neg hcol] at hp
      by_cases hpw : (map_type (pyStrip ta) (pyStrip ca)).1 = ""
      · rw [if_pos hpw] at hp
        exact ih p (by simpa using hp)
      · rw [if_neg hpw] at hp
        simp only [List.mem_cons] at hp
        rcases hp with rfl | hp2
        · exact ⟨ca, ta, hcol, hpw, rfl⟩
        · exact ih p hp2

/-- Every emitted column line is a `colLine` of some produced column. -/
theorem emitCols_mem : ∀ (cols : List (String × String)) (line : String),
    line ∈ emitCols cols → ∃ p bl, p ∈ cols ∧ line = colLine p.1 bl p.2 := by
  intro cols
  induction cols with
  | nil => intro line h; simp [emitCols] at h
  | cons a rest ih =>
    obtain ⟨ad, ac⟩ := a
    intro line h
    simp only [emitCols, List.mem_cons] at h
    rcases h with rfl | h2
    · exact ⟨(ad, ac), rest.isEmpty, List.mem_cons_self _ _, rfl⟩
    · rcases ih line h2 with ⟨p, bl, hp, hline⟩
      exact ⟨p, bl, List.mem_cons_of_mem _ hp, hline⟩

set_option maxHeartbeats 1000000 in
/-- No emitted column line can coincide with the fixed surrogate-key line:
with an inline comment the line contains a dash; with a quoted name it starts
with a double quote; otherwise the name is a run of identifier characters, so
it would have to be exactly `id` with `uuid primary key ...` as its type, and
no mapped type has that form. -/
theorem colLine_ne_idLine (raw ty : String) (bl : Bool) (comment : String)
    (_hcol : pyStrip raw ≠ "")
    (hpw : (map_type (pyStrip ty) (pyStrip raw)).1 ≠ "") :
    colLine (quote_ident (pyStrip raw) ++ " " ++ (map_type (pyStrip ty) (pyStrip raw)).1)
      bl comment ≠ idLine := by
  intro heq
  have hd0 := congrArg String.data heq
  simp only [colLine, String.data_append] at hd0
  by_cases hcmt : comment = ""
  · subst hcmt
    rw [if_pos rfl] at hd0
    simp only [show ("" : String).data = [] from rfl, List.append_nil, List.append_assoc,
      show ("  " : String).data = [' ', ' '] from rfl,
      show (" " : String).data = [' '] from rfl,
      List.cons_append, List.nil_append, List.singleton_append] at hd0
    rw [show idLine.data = ' ' :: ' ' ::
        (['i', 'd'] ++ ' ' :: ("uuid primary key default gen_random_uuid(),").data)
      from rfl] at hd0
    simp only [List.cons.injEq, true_and] at hd0
    by_cases hv : is_valid_identifier (pyStrip raw) = true
    · have hq : quote_ident (pyStrip raw) = pyStrip raw := by simp [quote_ident, hv]
      rw [hq] at hd0
      have hchars := stripped_valid_chars raw hv
      have hnospace : ∀ ch ∈ (pyStrip raw).data, ch ≠ ' ' :=
        fun ch hm => identChar_ne_space ch (hchars ch hm)
      obtain ⟨hcq, hrest⟩ := splitAtSpace (pyStrip raw).data
        ((map_type (pyStrip ty) (pyStrip raw)).1.data ++
          (if bl then ("" : String) else ",").data)
        ['i', 'd'] ("uuid primary key default gen_random_uuid(),").data
        hnospace (by decide) hd0
      have hcol_id : pyStrip raw = "id" :=
        String.ext (show (pyStrip raw).data = "id".data from hcq)
      have hpg10 : (map_type (pyStrip ty) (pyStrip raw)).1 ∈
          (["text", "timestamptz", "date", "time", "boolean", "numeric(12,2)",
            "numeric", "jsonb", "id", "id[]"] : List String) := by
        rcases map_type_shapes (pyStrip ty) (pyStrip raw) with h0 | hmem | hqq | hqa
        · exact absurd h0 hpw
        · simp only [List.mem_cons, List.not_mem_nil, or_false] at hmem
          rcases hmem with h | h | h | h | h | h | h | h
          · exact List.mem_cons.mpr (Or.inl h)
          · exact List.mem_cons_of_mem _ (List.mem_cons.mpr (Or.inl h))
          · exact List.mem_cons_of_mem _ (List.mem_cons_of_mem _ (List.mem_cons.mpr (Or.inl h)))
          · exact List.mem_cons_of_mem _ (List.mem_cons_of_mem _ (List.mem_cons_of_mem _
              (List.mem_cons.mpr (Or.inl h))))
          · exact List.mem_cons_of_mem _ (List.mem_cons_of_mem _ (List.mem_cons_of_mem _
              (List.mem_cons_of_mem _ (List.mem_cons.mpr (Or.inl h)))))
          · exact List.mem_cons_of_mem _ (List.mem_cons_of_mem _ (List.mem_cons_of_mem _
              (List.mem_cons_of_mem _ (List.mem_cons_of_mem _ (List.mem_cons.mpr (Or.inl h))))))
          · exact List.mem_cons_of_mem _ (List.mem_cons_of_mem _ (List.mem_cons_of_mem _
              (List.mem_cons_of_mem _ (List.mem_cons_of_mem _ (List.mem_cons_of_mem _
                (List.mem_cons.mpr (Or.inl h)))))))
          · exact List.mem_cons_of_mem _ (List.mem_cons_of_mem _ (List.mem_cons_of_mem _
              (List.mem_cons_of_mem _ (List.mem_cons_of_mem _ (List.mem_cons_of_mem _
                (List.mem_cons_of_mem _ (List.mem_cons.mpr (Or.inl h))))))))
        · have hqid : quote_ident (pyStrip raw) = "id" := by rw [hcol_id]; decide
          rw [hqid] at hqq
          exact List.mem_cons_of_mem _ (List.mem_cons_of_mem _ (List.mem_cons_of_mem _
            (List.mem_cons_of_mem _ (List.mem_cons_of_mem _ (List.mem_cons_of_mem _
              (List.mem_cons_of_mem _ (List.mem_cons_of_mem _
                (List.mem_cons.mpr (Or.inl hqq)))))))))
        · have hqid : quote_ident (pyStrip raw) ++ "[]" = "id[]" := by rw [hcol_id]; decide
          rw [hqid] at hqa
          exact List.mem_cons_of_mem _ (List.mem_cons_of_mem _ (List.mem_cons_of_mem _
            (List.mem_cons_of_mem _ (List.mem_cons_of_mem _ (List.mem_cons_of_mem _
              (List.mem_cons_of_mem _ (List.mem_cons_of_mem _ (List.mem_cons_of_mem _
                (List.mem_cons.mpr (Or.inl hqa))))))))))
      simp only [List.mem_cons, List.not_mem_nil, or_false] at hpg10
      rcases hpg10 with h | h | h | h | h | h | h | h | h | h <;>
        rw [h] at hrest <;> cases bl <;> exact absurd hrest (by decide)
    · have hq : (quote_ident (pyStrip raw)).data =
          '"' :: (escapeQuotes (pyStrip raw).data ++ ['"']) := by
        simp [quote_ident, hv]
      rw [hq] at hd0
      have hcontra : (some '"' : Option Char) = some 'i' := congrArg List.head? hd0
      exact absurd hcontra (by decide)
  · have hdash : '-' ∈ idLine.data := by
      rw [← hd0, if_neg hcmt]
      refine List.mem_append_right _ ?_
      rw [String.data_append]
      exact List.mem_append_left _ (by decide)
    exact absurd hdash (by decide)

/-- Counting distributes over append. -/
theorem countEq_append (s : String) (l₁ l₂ : List String) :
    countEq s (l₁ ++ l₂) = countEq s l₁ + countEq s l₂ := by
  simp [countEq, List.countP_append]

/-- A non-matching head does not count. -/
theorem countEq_cons_of_ne (s a : String) (l : List String) (h : a ≠ s) :
    countEq s (a :: l) = countEq s l := by
  simp [countEq, List.countP_cons, h]

/-- A matching head counts once. -/
theorem countEq_cons_self (s : String) (l : List String) :
    countEq s (s :: l) = countEq s l + 1 := by
  simp [countEq, List.countP_cons]

/-- A list without the element has count zero. -/
theorem countEq_eq_zero (s : String) (l : List String) (h : ∀ a ∈ l, a ≠ s) :
    countEq s l = 0 := by
  rw [countEq, List.countP_eq_zero]
  intro a ha
  simp [h a ha]

/-- The table-comment line never equals the surrogate-key line (it starts
with a dash, not a space). -/
theorem table_line_ne_idLine (q : String) : ("-- Table: " ++ q) ≠ idLine := by
  intro h
  have h2 := congrArg (fun s : String => s.data.head?) h
  have h3 : (some '-' : Option Char) = some ' ' := h2
  exact absurd h3 (by decide)

/-- The create-table line never equals the surrogate-key line (it starts
with the letter c, not a space). -/
theorem create_line_ne_idLine (q : String) :
    ("create table if not exists " ++ q ++ " (") ≠ idLine := by
  intro h
  have h2 := congrArg (fun s : String => s.data.head?) h
  have h3 : (some 'c' : Option Char) = some ' ' := h2
  exact absurd h3 (by decide)

/-- A warning comment line never equals the surrogate-key line (it starts
with a dash, not a space). -/
theorem warn_line_ne_idLine (w : String) : ("--   " ++ w) ≠ idLine := by
  intro h
  have h2 := congrArg (fun s : String => s.data.head?) h
  have h3 : (some '-' : Option Char) = some ' ' := h2
  exact absurd h3 (by decide)

/-- No line of the warnings block equals the surrogate-key line. -/
theorem warnTail_no_idLine (ws : List String) :
    ∀ a ∈ warnTail ws, a ≠ idLine := by
  intro a ha
  unfold warnTail at ha
  split at ha
  · simp at ha
  · simp only [List.mem_cons] at ha
    rcases ha with rfl | rfl | hm
    · decide
    · decide
    · rcases List.mem_map.mp hm with ⟨w, _, rfl⟩
      exact warn_line_ne_idLine w

/-- No emitted column line equals the surrogate-key line. -/
theorem emit_no_idLine (l : List (String × String × String)) :
    ∀ a ∈ emitCols (buildCols l).1, a ≠ idLine := by
  intro a ha
  rcases emitCols_mem _ _ ha with ⟨p, bl, hp, rfl⟩
  rcases buildCols_mem _ _ hp with ⟨raw, ty, hcol, hpw, hfst⟩
  rw [hfst]
  exact colLine_ne_idLine raw ty bl p.2 hcol hpw

/-- The newline splitter never returns an empty list. -/
theorem splitNlAux_ne_nil : ∀ (l acc : List Char), splitNlAux l acc ≠ [] := by
  intro l
  induction l with
  | nil => intro acc; simp [splitNlAux]
  | cons c l ih =>
    intro acc
    rw [splitNlAux]
    split
    · simp
    · exact ih _

/-- Splitting a newline-free tail yields the single pending line. -/
theorem splitNlAux_no_nl : ∀ (l acc : List Char), (∀ c ∈ l, c ≠ '\n') →
    splitNlAux l acc = [String.mk (acc.reverse ++ l)] := by
  intro l
  induction l with
  | nil => intro acc _; simp [splitNlAux]
  | cons c l ih =>
    intro acc h
    have hc : c ≠ '\n' := h c (List.mem_cons_self _ _)
    rw [splitNlAux, if_neg hc, ih (c :: acc) (fun x hx => h x (List.mem_cons_of_mem _ hx))]
    simp

/-- The newline splitter is a homomorphism across an explicit newline. -/
theorem splitNlAux_split : ∀ (P Q acc : List Char),
    splitNlAux (P ++ '\n' :: Q) acc = splitNlAux P acc ++ splitNlAux Q [] := by
  intro P
  induction P with
  | nil =>
    intro Q acc
    simp [splitNlAux]
  | cons c P ih =>
    intro Q acc
    show splitNlAux (c :: (P ++ '\n' :: Q)) acc = splitNlAux (c :: P) acc ++ _
    by_cases hc : c = '\n'
    · subst hc
      simp only [splitNlAux, if_pos rfl, ih]
      rfl
    · simp only [splitNlAux, if_neg hc, ih]

/-- The last physical line after an explicit newline followed by a
newline-free tail is that tail. -/
theorem splitNlAux_after_last (P acc L : List Char) (h : ∀ c ∈ L, c ≠ '\n') :
    (splitNlAux (P ++ '\n' :: L) acc).getLast? = some (String.mk L) := by
  rw [splitNlAux_split, splitNlAux_no_nl L [] h]
  rw [List.getLast?_append_of_ne_nil _ (by simp)]
  rfl

/-- The character data of the join accumulator: consuming one more line
prepends the accumulator and a newline. -/
theorem intercalate_go_cons_data : ∀ (as : List String) (acc b : String),
    (String.intercalate.go acc "\n" (b :: as)).data
      = acc.data ++ '\n' :: (String.intercalate.go b "\n" as).data := by
  intro as
  induction as with
  | nil =>
    intro acc b
    show ((acc ++ "\n") ++ b).data = acc.data ++ '\n' :: b.data
    rw [String.data_append, String.data_append]
    simp [show ("\n" : String).data = ['\n'] from rfl]
  | cons c as ih =>
    intro acc b
    show (String.intercalate.go ((acc ++ "\n") ++ b) "\n" (c :: as)).data = _
    rw [ih ((acc ++ "\n") ++ b) c, ih b c]
    rw [String.data_append, String.data_append]
    simp [show ("\n" : String).data = ['\n'] from rfl]

/-- Splitting the newline-join of newline-free lines restores the lines. -/
theorem textLines_go : ∀ (as : List String) (a : String),
    (∀ c ∈ a.data, c ≠ '\n') → (∀ l ∈ as, ∀ c ∈ l.data, c ≠ '\n') →
    textLines (String.intercalate.go a "\n" as) = a :: as := by
  intro as
  induction as with
  | nil =>
    intro a ha _
    show textLines a = [a]
    rw [textLines, splitNlAux_no_nl a.data [] ha]
    simp
  | cons b as ih =>
    intro a ha hrest
    rw [textLines, intercalate_go_cons_data as a b, splitNlAux_split]
    rw [splitNlAux_no_nl a.data [] ha]
    have hb := ih b (hrest b (List.mem_cons_self _ _))
      (fun l hl => hrest l (List.mem_cons_of_mem _ hl))
    rw [show splitNlAux (String.intercalate.go b "\n" as).data []
        = textLines (String.intercalate.go b "\n" as) from rfl, hb]
    simp

/-- Splitting the newline-join of a non-empty list of newline-free lines
restores the lines. -/
theorem textLines_intercalate (lines : List String) (hne : lines ≠ [])
    (hfree : ∀ l ∈ lines, ∀ c ∈ l.data, c ≠ '\n') :
    textLines (String.intercalate "\n" lines) = lines := by
  cases lines with
  | nil => exact absurd rfl hne
  | cons a as =>
    show textLines (String.intercalate.go a "\n" as) = a :: as
    exact textLines_go as a (hfree a (List.mem_cons_self _ _))
      (fun l hl => hfree l (List.mem_cons_of_mem _ hl))

/-- The data of a newline-join always ends with a newline followed by the
data of the final line, as soon as at least one line precedes it. -/
theorem intercalate_last_data : ∀ (as : List String) (a last : String),
    ∃ P, (String.intercalate "\n" ((a :: as) ++ [last])).data = P ++ '\n' :: last.data := by
  intro as
  induction as with
  | nil =>
    intro a last
    refine ⟨a.data, ?_⟩
    show ((a ++ "\n") ++ last).data = a.data ++ '\n' :: last.data
    rw [String.data_append, String.data_append]
    simp [show ("\n" : String).data = ['\n'] from rfl]
  | cons b as ih =>
    intro a last
    rcases ih b last with ⟨P, hP⟩
    refine ⟨a.data ++ '\n' :: P, ?_⟩
    have hstep : (String.intercalate "\n" ((a :: b :: as) ++ [last])).data
        = a.data ++ '\n' :: (String.intercalate "\n" ((b :: as) ++ [last])).data := by
      show (String.intercalate.go a "\n" (b :: (as ++ [last]))).data = _
      rw [intercalate_go_cons_data]
      rfl
    rw [hstep, hP]
    simp

/-- The last physical line of the newline-join of any lines followed by a
final newline-free line is that final line. -/
theorem textLines_getLast (init : List String) (last : String)
    (h : ∀ c ∈ last.data, c ≠ '\n') :
    (textLines (String.intercalate "\n" (init ++ [last]))).getLast? = some last := by
  cases init with
  | nil =>
    show (textLines (String.intercalate "\n" [last])).getLast? = some last
    rw [show String.intercalate "\n" [last] = last from rfl]
    rw [textLines, splitNlAux_no_nl last.data [] h]
    rfl
  | cons a as =>
    rcases intercalate_last_data as a last with ⟨P, hP⟩
    rw [textLines, hP, splitNlAux_after_last P [] last.data h]

/-- The generated line list is never empty. -/
theorem ddlLines_ne_nil (tb : String) (ds ts ns : List String) :
    ddlLines tb ds ts ns ≠ [] := by
  simp [ddlLines]

/-- When warnings were accumulated, the last generated line is the comment
for the last warning. -/
theorem ddlLines_getLast_warn (tb : String) (ds ts ns : List String) (w : String)
    (hw : (buildCols (ds.zip (ts.zip ns))).2.getLast? = some w) :
    (ddlLines tb ds ts ns).getLast? = some ("--   " ++ w) := by
  have hne : (buildCols (ds.zip (ts.zip ns))).2 ≠ [] := by
    intro hnil
    rw [hnil] at hw
    simp at hw
  simp only [ddlLines]
  rw [show warnTail (buildCols (ds.zip (ts.zip ns))).2
      = "" :: "-- Warnings during generation:" ::
        (buildCols (ds.zip (ts.zip ns))).2.map (fun x => "--   " ++ x)
    from by rw [warnTail, if_neg (by simpa [List.isEmpty_iff] using hne)]]
  have hmapne : (buildCols (ds.zip (ts.zip ns))).2.map (fun x => "--   " ++ x) ≠ [] := by
    simpa using hne
  rw [List.getLast?_append_of_ne_nil _ (by simp [hmapne])]
  rw [show ("" :: "-- Warnings during generation:" ::
      (buildCols (ds.zip (ts.zip ns))).2.map (fun x => "--   " ++ x))
    = (["", "-- Warnings during generation:"] : List String) ++
      (buildCols (ds.zip (ts.zip ns))).2.map (fun x => "--   " ++ x) from by simp]
  rw [List.getLast?_append_of_ne_nil _ hmapne]
  rw [List.getLast?_map]
  rw [hw]
  rfl

/-- C1 counterexample: on an input that produces a warning, the last
physical line of the returned text is the warning comment, not the closing
parenthesis line; and on an input whose column name embeds a newline plus
the surrogate-key line's text, the returned text contains that physical
line twice, not exactly once. -/
theorem c1_counterexample :
    (textLines (generate_create_table_sql "t" [""] ["Foo"] ["bar"])).getLast? =
      some "--   Unrecognized type 'Foo' for column 'bar', defaulting to text."
    ∧ ("--   Unrecognized type 'Foo' for column 'bar', defaulting to text." : String) ≠ ");"
    ∧ countEq idLine (textLines (generate_create_table_sql "t" [""] ["String"]
        ["x\n  id uuid primary key default gen_random_uuid(),\ny"])) = 2
    ∧ (2 : Nat) ≠ 1 := by
  refine ⟨?_, by decide, ?_, by decide⟩
  · set_option maxRecDepth 8000 in rfl
  · set_option maxRecDepth 8000 in decide

/-- C1 (amended): for every input, the generator emits exactly one line
equal to the fixed surrogate-key line, and the returned text contains
exactly one such physical line whenever no emitted line embeds a newline
character (a cell content embedding a newline can otherwise duplicate it
across physical lines); the text's last physical line is the closing
parenthesis line when no warnings were accumulated, and when warnings were
accumulated the closing parenthesis is followed by the warnings block,
whose final warning comment — when it embeds no newline — is the text's
last physical line. -/
theorem c1_id_line_and_last_line (tb : String) (ds ts ns : List String) :
    countEq idLine (ddlLines tb ds ts ns) = 1
    ∧ ((∀ l ∈ ddlLines tb ds ts ns, ∀ c ∈ l.data, c ≠ '\n') →
        countEq idLine (textLines (generate_create_table_sql tb ds ts ns)) = 1)
    ∧ ((buildCols (ds.zip (ts.zip ns))).2 = [] →
        (textLines (generate_create_table_sql tb ds ts ns)).getLast? = some ");")
    ∧ (∀ w, (buildCols (ds.zip (ts.zip ns))).2.getLast? = some w →
        (∀ c ∈ w.data, c ≠ '\n') →
        (textLines (generate_create_table_sql tb ds ts ns)).getLast? =
          some ("--   " ++ w)) := by
  have hcount : countEq idLine (ddlLines tb ds ts ns) = 1 := by
    simp only [ddlLines]
    rw [show (["-- Generated by generate_supabase_schema.py",
        "-- Table: " ++ quote_ident tb,
        "create table if not exists " ++ quote_ident tb ++ " (",
        "  -- Surrogate primary key for internal use",
        idLine] : List String) ++ emitCols (buildCols (ds.zip (ts.zip ns))).1
        ++ [");"] ++ warnTail (buildCols (ds.zip (ts.zip ns))).2
      = ("-- Generated by generate_supabase_schema.py" ::
          ("-- Table: " ++ quote_ident tb) ::
          ("create table if not exists " ++ quote_ident tb ++ " (") ::
          "  -- Surrogate primary key for internal use" ::
          idLine :: (emitCols (buildCols (ds.zip (ts.zip ns))).1
            ++ [");"] ++ warnTail (buildCols (ds.zip (ts.zip ns))).2))
      from by simp]
    rw [countEq_cons_of_ne _ _ _ (by decide),
      countEq_cons_of_ne _ _ _ (table_line_ne_idLine (quote_ident tb)),
      countEq_cons_of_ne _ _ _ (create_line_ne_idLine (quote_ident tb)),
      countEq_cons_of_ne _ _ _ (by decide),
      countEq_cons_self,
      countEq_append, countEq_append,
      countEq_eq_zero _ _ (emit_no_idLine (ds.zip (ts.zip ns))),
      countEq_eq_zero _ _ (fun a ha => by
        rcases List.mem_singleton.mp ha with rfl
        decide),
      countEq_eq_zero _ _ (warnTail_no_idLine (buildCols (ds.zip (ts.zip ns))).2)]
  refine ⟨hcount, ?_, ?_, ?_⟩
  · intro hfree
    simp only [generate_create_table_sql]
    rw [textLines_intercalate _ (ddlLines_ne_nil tb ds ts ns) hfree]
    exact hcount
  · intro hw
    simp only [generate_create_table_sql, ddlLines, hw]
    rw [show warnTail [] = [] from rfl, List.append_nil]
    exact textLines_getLast _ ");" (by decide)
  · intro w hw hwfree
    have hlast := ddlLines_getLast_warn tb ds ts ns w hw
    rcases List.getLast?_eq_some_iff.mp hlast with ⟨init, hinit⟩
    simp only [generate_create_table_sql]
    rw [hinit]
    refine textLines_getLast init ("--   " ++ w) ?_
    rw [String.data_append]
    intro c hc
    rcases List.mem_append.mp hc with h1 | h2
    · have hfix : ∀ c ∈ ("--   " : String).data, c ≠ '\n' := by decide
      exact hfix c h1
    · exact hwfree c h2

/-- Witness for C1: the no-newline uniqueness case, the no-warning
last-line case, and the warning last-line case, each at a concrete
input. -/
theorem c1_id_line_and_last_line_witness :
    countEq idLine (textLines (generate_create_table_sql "t" ["d"] ["String"] ["c"])) = 1
    ∧ (textLines (generate_create_table_sql "t" ["d"] ["String"] ["c"])).getLast? = some ");"
    ∧ (textLines (generate_create_table_sql "t" [""] ["Bad"] ["x"])).getLast? =
        some ("--   " ++ "Unrecognized type 'Bad' for column 'x', defaulting to text.") :=
  ⟨(c1_id_line_and_last_line "t" ["d"] ["String"] ["c"]).2.1 (by decide),
   (c1_id_line_and_last_line "t" ["d"] ["String"] ["c"]).2.2.1 (by rfl),
   (c1_id_line_and_last_line "t" [""] ["Bad"] ["x"]).2.2.2 _ (by rfl) (by decide)⟩

end CreateDb
